import Mathlib

/-!
Verification of the figma-agent repository's core: the node-tree utilities,
URL parser, Figma REST client error normalization, and the tool dispatcher
(search_nodes, get_node/get_nodes, get_images) — shallowly embedded from
`src/figma-client.ts` (src/unnamed/part_000) and `src/index.ts`.

Modelling conventions:
* A `FigmaNode` keeps the fields the code observes: `id`, `name`, `type`,
  the optional `children` list, and the open property bag restricted to the
  three optional properties the utilities read (`characters`, `fills`,
  `absoluteBoundingBox`).  The `fills` array is modelled by its length, the
  only observation `summarizeNode` makes of it.
* JavaScript numbers on bounding boxes are modelled as rationals; `Math.round`
  is `round` (both round half toward positive infinity).
* Fallible JavaScript code (functions that throw) is modelled with
  `Option`/`Except`; the network is modelled by passing the request the code
  would issue to an explicit `respond` function and logging the issued
  requests, so "no network call happens" is "the request log is empty".
-/

/-- Bounding box as observed by `summarizeNode` (only width/height are read). -/
structure BBox where
  width : Rat
  height : Rat
deriving DecidableEq, Repr

/-- Embedding of the `FigmaNode` interface (figma-client.ts lines 22-28):
core fields `id`, `name`, `type`, optional `children`, plus the open-ended
property bag restricted to the optional properties the repository reads:
`characters` (string), `fills` (array, kept as its length), and
`absoluteBoundingBox`. -/
inductive FigmaNode : Type where
  | mk (id : String) (name : String) (type : String)
       (children : Option (List FigmaNode))
       (characters : Option String)
       (fills : Option Nat)
       (absoluteBoundingBox : Option BBox) : FigmaNode

def FigmaNode.id : FigmaNode → String
  | .mk i _ _ _ _ _ _ => i

def FigmaNode.name : FigmaNode → String
  | .mk _ n _ _ _ _ _ => n

def FigmaNode.type : FigmaNode → String
  | .mk _ _ t _ _ _ _ => t

def FigmaNode.children : FigmaNode → Option (List FigmaNode)
  | .mk _ _ _ c _ _ _ => c

def FigmaNode.characters : FigmaNode → Option String
  | .mk _ _ _ _ ch _ _ => ch

def FigmaNode.fills : FigmaNode → Option Nat
  | .mk _ _ _ _ _ f _ => f

def FigmaNode.absoluteBoundingBox : FigmaNode → Option BBox
  | .mk _ _ _ _ _ _ b => b

mutual
/-- Embedding of `flattenNodes` (figma-client.ts lines 233-243).  The JS
function pushes onto the mutable accumulator `result` and recurses over the
children when the `children` field is present; pushing is modelled by
appending to the accumulator. -/
def flattenNodes (node : FigmaNode) (result : List FigmaNode) : List FigmaNode :=
  match node with
  | .mk i n t children ch f b =>
    let r := result ++ [FigmaNode.mk i n t children ch f b]
    match children with
    | none => r
    | some cs => flattenList cs r

/-- The `for (const child of node.children)` loop of `flattenNodes`,
threading the accumulator left to right. -/
def flattenList (cs : List FigmaNode) (result : List FigmaNode) : List FigmaNode :=
  match cs with
  | [] => result
  | c :: rest => flattenList rest (flattenNodes c result)
end

mutual
/-- Specification-side pre-order sequence: a node precedes all nodes of its
subtrees, and the children's subtrees appear left to right in their stored
order.  Written from the spec's description of `flatten`, to be compared with
the source's accumulator-threading `flattenNodes`. -/
def preorder (n : FigmaNode) : List FigmaNode :=
  match n with
  | .mk i nm t children ch f b =>
    FigmaNode.mk i nm t children ch f b ::
      (match children with
       | none => []
       | some cs => preorderList cs)

/-- Concatenation of the pre-order sequences of a list of sibling subtrees,
left to right. -/
def preorderList : List FigmaNode → List FigmaNode
  | [] => []
  | c :: rest => preorder c ++ preorderList rest
end

mutual
/-- Embedding of `findNodeById` (figma-client.ts lines 248-263): check the
root's id, then scan the children in order, returning the first hit. -/
def findNodeById (root : FigmaNode) (id : String) : Option FigmaNode :=
  match root with
  | .mk i nm t children ch f b =>
    if i == id then some (FigmaNode.mk i nm t children ch f b)
    else match children with
      | none => none
      | some cs => findInChildren cs id

/-- The `for (const child of root.children)` loop of `findNodeById`:
return the first non-null recursive result. -/
def findInChildren : List FigmaNode → String → Option FigmaNode
  | [], _ => none
  | c :: rest, id =>
    match findNodeById c id with
    | some found => some found
    | none => findInChildren rest id
end

mutual
theorem flatten_eq (n : FigmaNode) (acc : List FigmaNode) :
    flattenNodes n acc = acc ++ preorder n := by
  cases n with
  | mk i nm t children ch f b =>
    cases children with
    | none => simp [flattenNodes, preorder]
    | some cs =>
      simp only [flattenNodes, preorder]
      rw [flattenList_eq]
      simp

theorem flattenList_eq (cs : List FigmaNode) (acc : List FigmaNode) :
    flattenList cs acc = acc ++ preorderList cs := by
  cases cs with
  | nil => simp [flattenList, preorderList]
  | cons c rest =>
    simp only [flattenList, preorderList]
    rw [flatten_eq, flattenList_eq]
    simp
end

theorem preorderList_length (cs : List FigmaNode) :
    (preorderList cs).length = (cs.map (fun c => (preorder c).length)).sum := by
  induction cs with
  | nil => simp [preorderList]
  | cons c rest ih => simp [preorderList, ih]

/-- C1: `flattenNodes` lists the tree in pre-order (each node precedes its
subtrees, children's subtrees left to right in stored order, as captured by
the spec-side `preorder`), and its length is one plus the sum of the lengths
of the flattenings of the children. -/
theorem C1_flatten_preorder_length (T : FigmaNode) :
    flattenNodes T [] = preorder T ∧
    (flattenNodes T []).length =
      1 + ((T.children.getD []).map (fun c => (flattenNodes c []).length)).sum := by
  have h : ∀ c, flattenNodes c [] = preorder c := fun c => by simpa using flatten_eq c []
  refine ⟨h T, ?_⟩
  rw [h]
  cases T with
  | mk i nm t children ch f b =>
    cases children with
    | none => simp [preorder, FigmaNode.children]
    | some cs =>
      simp [preorder, FigmaNode.children, preorderList_length, h, Nat.add_comm]

theorem find?_append {α : Type} (p : α → Bool) (l₁ l₂ : List α) :
    (l₁ ++ l₂).find? p =
      match l₁.find? p with
      | some x => some x
      | none => l₂.find? p := by
  induction l₁ with
  | nil => simp
  | cons a rest ih =>
    by_cases hp : p a = true
    · simp [List.find?_cons, hp]
    · simp only [Bool.not_eq_true] at hp
      simp [List.find?_cons, hp, ih]

mutual
theorem findNodeById_eq (n : FigmaNode) (i : String) :
    findNodeById n i = (preorder n).find? (fun m => m.id == i) := by
  cases n with
  | mk nid nm t children ch f b =>
    by_cases h : (nid == i) = true
    · cases children <;> simp [findNodeById, preorder, List.find?_cons, FigmaNode.id, h]
    · simp only [Bool.not_eq_true] at h
      cases children with
      | none => simp [findNodeById, preorder, List.find?_cons, FigmaNode.id, h]
      | some cs =>
        simp [findNodeById, preorder, List.find?_cons, FigmaNode.id, h,
          findInChildren_eq cs i]

theorem findInChildren_eq (cs : List FigmaNode) (i : String) :
    findInChildren cs i = (preorderList cs).find? (fun m => m.id == i) := by
  cases cs with
  | nil => simp [findInChildren, preorderList]
  | cons c rest =>
    simp only [findInChildren, preorderList]
    rw [find?_append, ← findNodeById_eq c i, ← findInChildren_eq rest i]
    cases findNodeById c i <;> rfl

end

/-- C2: `findNodeById` returns `none` iff no node of the flattening carries the
id, and otherwise returns the first node in pre-order whose id matches (the
`List.find?` of the pre-order flattening), so with duplicate ids the first
pre-order occurrence wins. -/
theorem C2_findNodeById_first_preorder (T : FigmaNode) (i : String) :
    (findNodeById T i = none ↔ ∀ n ∈ flattenNodes T [], n.id ≠ i) ∧
    findNodeById T i = (flattenNodes T []).find? (fun n => n.id == i) := by
  have hf : flattenNodes T [] = preorder T := by simpa using flatten_eq T []
  have he : findNodeById T i = (flattenNodes T []).find? (fun n => n.id == i) := by
    rw [hf]; exact findNodeById_eq T i
  refine ⟨?_, he⟩
  rw [he, List.find?_eq_none]
  simp

/-- Embedding of `summarizeNode` (figma-client.ts lines 268-290): builds the
parts list exactly in source order (head line, child count, truncated text for
TEXT nodes, fill count, rounded size) and joins with " | ".  JavaScript
`Math.round` on the rational-modelled box numbers is `round` (both round half
toward positive infinity); `chars.substring(0, 50)` is `String.take 50`. -/
def summarizeNode (node : FigmaNode) : String :=
  let parts := [node.type ++ ": \"" ++ node.name ++ "\" (id: " ++ node.id ++ ")"]
  let parts := match node.children with
    | some cs => parts ++ ["children: " ++ toString cs.length]
    | none => parts
  let parts := match node.type == "TEXT", node.characters with
    | true, some chars => parts ++ ["text: \"" ++ chars.take 50 ++ "...\""]
    | _, _ => parts
  let parts := match node.fills with
    | some fl => parts ++ ["fills: " ++ toString fl]
    | none => parts
  let parts := match node.absoluteBoundingBox with
    | some box =>
        parts ++ ["size: " ++ toString (round box.width) ++ "x" ++ toString (round box.height)]
    | none => parts
  String.intercalate " | " parts

/-- The unconditional head segment of a node summary. -/
def headPart (n : FigmaNode) : String :=
  n.type ++ ": \"" ++ n.name ++ "\" (id: " ++ n.id ++ ")"

/-- The child-count segment: present exactly when the `children` field is. -/
def childrenPart (n : FigmaNode) : List String :=
  match n.children with
  | some cs => ["children: " ++ toString cs.length]
  | none => []

/-- The truncated-text segment: present exactly for type-TEXT nodes carrying
a `characters` property. -/
def textPart (n : FigmaNode) : List String :=
  match n.type == "TEXT", n.characters with
  | true, some chars => ["text: \"" ++ chars.take 50 ++ "...\""]
  | _, _ => []

/-- The fill-count segment: present exactly when a fills array is. -/
def fillsPart (n : FigmaNode) : List String :=
  match n.fills with
  | some fl => ["fills: " ++ toString fl]
  | none => []

/-- The rounded width-by-height segment: present exactly when a bounding box
is. -/
def sizePart (n : FigmaNode) : List String :=
  match n.absoluteBoundingBox with
  | some box => ["size: " ++ toString (round box.width) ++ "x" ++ toString (round box.height)]
  | none => []

theorem summarizeNode_parts (n : FigmaNode) :
    summarizeNode n = String.intercalate " | "
      (headPart n :: (childrenPart n ++ textPart n ++ fillsPart n ++ sizePart n)) := by
  cases n with
  | mk i nm t c ch f b =>
    rcases Bool.eq_false_or_eq_true (t == "TEXT") with ht | ht <;>
      cases c <;> cases ch <;> cases f <;> cases b <;>
      simp [summarizeNode, headPart, childrenPart, textPart, fillsPart, sizePart,
        FigmaNode.type, FigmaNode.children, FigmaNode.characters, FigmaNode.fills,
        FigmaNode.absoluteBoundingBox, FigmaNode.name, FigmaNode.id, ht]

/-- C8: `summarizeNode` is total by construction, and each absent optional
field simply contributes no segment: without a bounding box the summary is
just the remaining parts (no size segment), and likewise the child-count,
text, and fill segments vanish when their fields are absent. -/
theorem C8_summarize_omits_absent (n : FigmaNode) :
    (n.absoluteBoundingBox = none →
      summarizeNode n = String.intercalate " | "
        (headPart n :: (childrenPart n ++ textPart n ++ fillsPart n))) ∧
    (n.children = none → childrenPart n = []) ∧
    (n.characters = none → textPart n = []) ∧
    (n.fills = none → fillsPart n = []) ∧
    (n.absoluteBoundingBox = none → sizePart n = []) := by
  have hsize : n.absoluteBoundingBox = none → sizePart n = [] := by
    intro h; simp [sizePart, h]
  refine ⟨?_, ?_, ?_, ?_, hsize⟩
  · intro h
    rw [summarizeNode_parts n, hsize h]
    simp
  · intro h; simp [childrenPart, h]
  · intro h
    rcases Bool.eq_false_or_eq_true (n.type == "TEXT") with ht | ht <;> simp [textPart, h, ht]
  · intro h; simp [fillsPart, h]

/-- A node with every optional field absent. -/
def plainFrameNode : FigmaNode := .mk "1:2" "Card" "FRAME" none none none none

theorem C8_summarize_omits_absent_witness :
    summarizeNode plainFrameNode = String.intercalate " | "
      (headPart plainFrameNode ::
        (childrenPart plainFrameNode ++ textPart plainFrameNode ++ fillsPart plainFrameNode)) ∧
    sizePart plainFrameNode = [] ∧
    summarizeNode plainFrameNode = "FRAME: \"Card\" (id: 1:2)" :=
  ⟨(C8_summarize_omits_absent plainFrameNode).1 rfl,
   (C8_summarize_omits_absent plainFrameNode).2.2.2.2 rfl,
   by decide⟩

/-- A TEXT node whose text is far shorter than 50 characters. -/
def shortTextNode : FigmaNode := .mk "t1" "label" "TEXT" none (some "Hi") none none

/-- A node of lowercase type "text" carrying a characters property. -/
def lowercaseTextNode : FigmaNode := .mk "t2" "label" "text" none (some "Hi") none none

set_option maxRecDepth 8192 in
/-- C10: the text segment is emitted exactly for nodes of type exactly "TEXT"
carrying a characters property, and is always the first 50 characters followed
by the marker "..." — even when the text is 50 characters or shorter, as the
concrete 2-character example shows; a lowercase-"text" node gets no text
segment. -/
theorem C10_text_truncation (n : FigmaNode) :
    textPart n = (if n.type == "TEXT" && n.characters.isSome
        then ["text: \"" ++ (n.characters.getD "").take 50 ++ "...\""] else []) ∧
    summarizeNode n = String.intercalate " | "
      (headPart n :: (childrenPart n ++ textPart n ++ fillsPart n ++ sizePart n)) ∧
    summarizeNode shortTextNode = "TEXT: \"label\" (id: t1) | text: \"Hi...\"" ∧
    summarizeNode lowercaseTextNode = "text: \"label\" (id: t2)" := by
  refine ⟨?_, summarizeNode_parts n, by decide, by decide⟩
  cases n with
  | mk i nm t c ch f b =>
    rcases Bool.eq_false_or_eq_true (t == "TEXT") with ht | ht <;> cases ch <;>
      simp [textPart, FigmaNode.type, FigmaNode.characters, ht]

/-- Whether the second list occurs at the head of the first. -/
def leadsWith : List Char → List Char → Bool
  | _, [] => true
  | [], _ :: _ => false
  | a :: as, b :: bs => a == b && leadsWith as bs

/-- Whether the second list occurs as a contiguous run anywhere in the first. -/
def containsSubL : List Char → List Char → Bool
  | [], sub => sub.isEmpty
  | a :: as, sub => leadsWith (a :: as) sub || containsSubL as sub

/-- Model of JavaScript `String.prototype.includes`. -/
def strContains (s sub : String) : Bool :=
  containsSubL s.toList sub.toList

/-- Model of JavaScript `toLowerCase`, per-character (faithful on ASCII). -/
def strToLower (s : String) : String := String.mk (s.toList.map Char.toLower)

/-- Model of JavaScript `toUpperCase`, per-character (faithful on ASCII). -/
def strToUpper (s : String) : String := String.mk (s.toList.map Char.toUpper)

/-- The per-node predicate of the search_nodes handler (index.ts lines
451-455): `node.name.toLowerCase().includes(queryLower) && (!type ||
node.type === type.toUpperCase())`.  JavaScript `!type` is true both for an
absent filter and for the empty string. -/
def searchNodeMatch (queryLower : String) (type : Option String) (n : FigmaNode) : Bool :=
  let nameMatch := strContains (strToLower n.name) queryLower
  let typeMatch := match type with
    | none => true
    | some t => t == "" || n.type == strToUpper t
  nameMatch && typeMatch

/-- The matches list of the search_nodes handler (index.ts lines 448-455):
flatten the document, lower-case the query once, filter. -/
def searchMatches (root : FigmaNode) (query : String) (type : Option String) : List FigmaNode :=
  (flattenNodes root []).filter (searchNodeMatch (strToLower query) type)

/-- One entry of the search result list (id, name, type, summary). -/
structure SearchEntry where
  id : String
  name : String
  type : String
  summary : String
deriving DecidableEq, Repr

/-- The serialized payload of the search_nodes handler. -/
structure SearchOutput where
  query : String
  type : String
  matchCount : Nat
  «matches» : List SearchEntry
deriving DecidableEq, Repr

/-- Embedding of the search_nodes handler payload (index.ts lines 444-477):
matches are mapped to entries, `matchCount` is the full count, the list is
capped via `slice(0, 50)` (= `take 50`), and the echoed `type` field is
JavaScript `type || 'any'` (absent or empty becomes "any"). -/
def search_nodes (root : FigmaNode) (query : String) (type : Option String) : SearchOutput :=
  let results := (searchMatches root query type).map
    (fun n => SearchEntry.mk n.id n.name n.type (summarizeNode n))
  { query := query
    type := match type with
      | some t => if t == "" then "any" else t
      | none => "any"
    matchCount := results.length
    «matches» := results.take 50 }

/-- The filter predicate exactly as claim C3 states it: the name contains the
query case-insensitively and, whenever a type filter is given, the node's
type equals the upper-cased filter. -/
def searchClaimPred (query : String) (type : Option String) (n : FigmaNode) : Bool :=
  strContains (strToLower n.name) (strToLower query) &&
    (match type with
     | none => true
     | some t => n.type == strToUpper t)

/-- A one-node tree of type "A" whose name matches query "x". -/
def cexSearchNode : FigmaNode := .mk "r" "x" "A" none none none none

/-- Counterexample to C3 as stated: with the empty-string type filter (a
given filter), the handler keeps the node because JavaScript `!type` treats
"" as no filter, while the claim's predicate — type must equal the
upper-cased filter, here "" — keeps nothing. -/
theorem C3_search_filter_counterexample :
    (searchMatches cexSearchNode "x" (some "")).map FigmaNode.id = ["r"] ∧
    ((flattenNodes cexSearchNode []).filter (searchClaimPred "x" (some ""))).map
      FigmaNode.id = [] := by decide

/-- C3 (amended): the search keeps exactly those nodes whose lower-cased name
contains the lower-cased query and — when a non-empty type filter is given —
whose type equals the upper-cased filter; an empty-string filter behaves as
no filter at all. -/
theorem C3_search_filter_amended (root : FigmaNode) (query : String) (type : Option String) :
    searchMatches root query type = (flattenNodes root []).filter (fun n =>
      strContains (strToLower n.name) (strToLower query) &&
        (match type with
         | none => true
         | some t => if t = "" then true else n.type == strToUpper t)) := by
  unfold searchMatches
  congr 1
  funext n
  unfold searchNodeMatch
  cases type with
  | none => rfl
  | some t =>
    by_cases h : t = ""
    · simp [h]
    · have hbe : (t == "") = false := by simp [h]
      simp [hbe, h]

/-- C4: the returned result list is capped at 50 entries while `matchCount`
reports the full number of matching nodes; when more than 50 nodes match the
list has exactly 50 entries. -/
theorem C4_search_cap (root : FigmaNode) (query : String) (type : Option String) :
    (search_nodes root query type).«matches».length ≤ 50 ∧
    (search_nodes root query type).matchCount = (searchMatches root query type).length ∧
    (50 < (search_nodes root query type).matchCount →
      (search_nodes root query type).«matches».length = 50) := by
  refine ⟨?_, ?_, ?_⟩
  · simp [search_nodes]
  · simp [search_nodes]
  · intro h
    simp only [search_nodes, List.length_take, List.length_map] at h ⊢
    omega

/-- A tree of 73 nodes whose names all contain "button" case-insensitively. -/
def bigButtonTree : FigmaNode :=
  .mk "r" "button frame" "FRAME"
    (some (List.replicate 72 (FigmaNode.mk "c" "Button" "COMPONENT" none none none none)))
    none none none

set_option maxRecDepth 100000 in
theorem C4_search_cap_witness :
    (search_nodes bigButtonTree "button" none).matchCount = 73 ∧
    50 < (search_nodes bigButtonTree "button" none).matchCount ∧
    (search_nodes bigButtonTree "button" none).«matches».length = 50 :=
  ⟨by decide, by decide, (C4_search_cap bigButtonTree "button" none).2.2 (by decide)⟩

theorem containsSubL_nil_sub (xs : List Char) : containsSubL xs [] = true := by
  cases xs <;> simp [containsSubL, leadsWith]

theorem leadsWith_self_append (xs ys : List Char) : leadsWith (xs ++ ys) xs = true := by
  induction xs with
  | nil => cases ys <;> simp [leadsWith]
  | cons a as ih => simp [leadsWith, ih]

theorem containsSubL_self_append (sub post : List Char) :
    containsSubL (sub ++ post) sub = true := by
  cases sub with
  | nil => simpa using containsSubL_nil_sub post
  | cons b bs =>
    have hl := leadsWith_self_append (b :: bs) post
    simp only [List.cons_append] at hl
    simp [containsSubL, hl]

theorem containsSubL_append_left (pre rest sub : List Char)
    (h : containsSubL rest sub = true) : containsSubL (pre ++ rest) sub = true := by
  induction pre with
  | nil => simpa using h
  | cons a as ih => simp [containsSubL, ih]

theorem containsSubL_self (xs : List Char) : containsSubL xs xs = true := by
  simpa using containsSubL_self_append xs []

/-- Whether an HTTP status is in the success range, as the fetch API's
`response.ok` reports it (status 200-299). -/
def respOk (status : Nat) : Bool := 200 ≤ status && status < 300

/-- Embedding of the error normalization of `FigmaClient.request`
(figma-client.ts lines 67-85): a non-ok response throws an Error whose
message is `Figma API error (status): body`, where `body` is the raw
response body text; an ok response resolves with the body for decoding. -/
def figmaRequest (status : Nat) (body : String) : Except String String :=
  if respOk status then Except.ok body
  else Except.error ("Figma API error (" ++ toString status ++ "): " ++ body)

/-- C7: every non-success HTTP response makes the client fail with an error
whose message contains the numeric status code and the raw response body
verbatim, never suppressed. -/
theorem C7_upstream_error_message (status : Nat) (body : String)
    (h : respOk status = false) :
    ∃ msg, figmaRequest status body = Except.error msg ∧
      strContains msg (toString status) = true ∧
      strContains msg body = true := by
  refine ⟨"Figma API error (" ++ toString status ++ "): " ++ body, by simp [figmaRequest, h], ?_, ?_⟩
  · unfold strContains
    simp only [String.toList, String.data_append, List.append_assoc]
    exact containsSubL_append_left _ _ _
      (containsSubL_self_append (toString status).data ("): ".data ++ body.data))
  · unfold strContains
    simp only [String.toList, String.data_append, List.append_assoc]
    exact containsSubL_append_left _ _ _
      (containsSubL_append_left _ _ _
        (containsSubL_append_left _ _ _ (containsSubL_self body.data)))

theorem C7_upstream_error_message_witness :
    respOk 403 = false ∧
    (∃ msg, figmaRequest 403 "Forbidden: invalid token" = Except.error msg ∧
      strContains msg (toString 403) = true ∧
      strContains msg "Forbidden: invalid token" = true) :=
  ⟨by decide, C7_upstream_error_message 403 "Forbidden: invalid token" (by decide)⟩

/-- Embedding of the endpoint built by `FigmaClient.getNodes` (figma-client.ts
lines 114-119): `/files/{fileKey}/nodes?ids=` followed by the comma-joined id
list. -/
def getNodesEndpoint (fileKey : String) (nodeIds : List String) : String :=
  "/files/" ++ fileKey ++ "/nodes?ids=" ++ String.intercalate "," nodeIds

/-- A tool call success result: the single text content a handler returns. -/
structure CallResult where
  text : String
deriving DecidableEq, Repr

/-- Embedding of the get_node handler (index.ts lines 346-358): delegate to
`figmaClient.getNodes` with the singleton id list and serialize the decoded
response.  The network round-trip is the `respond` parameter (endpoint to
decoded response); the `JSON.stringify(result, null, 2)` serialization is the
`serialize` parameter.  Both node tools share the client and the serializer. -/
def get_node_tool {R : Type} (respond : String → R) (serialize : R → String)
    (fileKey nodeId : String) : CallResult :=
  ⟨serialize (respond (getNodesEndpoint fileKey [nodeId]))⟩

/-- Embedding of the get_nodes handler (index.ts lines 360-372): delegate to
`figmaClient.getNodes` with the given id list and serialize the decoded
response. -/
def get_nodes_tool {R : Type} (respond : String → R) (serialize : R → String)
    (fileKey : String) (nodeIds : List String) : CallResult :=
  ⟨serialize (respond (getNodesEndpoint fileKey nodeIds))⟩

theorem intercalate_comma_singleton (x : String) : String.intercalate "," [x] = x := rfl

/-- C9: for every file key and node id, the get_node tool produces the same
CallResult as the get_nodes tool on the singleton list — both issue the same
client request (a singleton list comma-joins to the id itself) and serialize
the same payload. -/
theorem C9_get_node_singleton {R : Type} (respond : String → R)
    (serialize : R → String) (fileKey nodeId : String) :
    get_node_tool respond serialize fileKey nodeId =
      get_nodes_tool respond serialize fileKey [nodeId] ∧
    getNodesEndpoint fileKey [nodeId] =
      "/files/" ++ fileKey ++ "/nodes?ids=" ++ nodeId := by
  constructor
  · rfl
  · simp [getNodesEndpoint, intercalate_comma_singleton]

/-- Raw (pre-validation) arguments of the get_images tool.  The scale is an
arbitrary number (rational model); format is an arbitrary optional string. -/
structure GetImagesRaw where
  file_key : String
  node_ids : List String
  format : Option String
  scale : Option Rat
deriving DecidableEq, Repr

/-- The format enumeration of GetImagesSchema (index.ts line 79). -/
def imageFormats : List String := ["png", "jpg", "svg", "pdf"]


/-- The scale constraint of `GetImagesSchema.parse` (index.ts line 80):
`z.number().min(0.01).max(4)` on an optional scale; the 0.01 bound is the
exact rational `mkRat 1 100`.  On violation the parse throws, modelled as
`Except.error` with a descriptive message (the exact zod message text is not
modelled). -/
def getImagesParseScale (r : GetImagesRaw) : Except String GetImagesRaw :=
  match r.scale with
  | none => Except.ok r
  | some s =>
    if s < mkRat 1 100 then Except.error "Number must be greater than or equal to 0.01"
    else if 4 < s then Except.error "Number must be less than or equal to 4"
    else Except.ok r

/-- Embedding of `GetImagesSchema.parse` (index.ts lines 76-81): the optional
format must be one of the four enum literals, and the optional scale must lie
in [0.01, 4]. -/
def getImagesParse (r : GetImagesRaw) : Except String GetImagesRaw :=
  match r.format with
  | none => getImagesParseScale r
  | some f =>
    if imageFormats.contains f then getImagesParseScale r
    else Except.error "Invalid enum value for format"

/-- Embedding of the endpoint built by `FigmaClient.getImages` (figma-client.ts
lines 124-136): comma-joined ids, scale defaulting to 1 (JavaScript
`options?.scale || 1`, so a 0 scale is also replaced by 1), format defaulting
to "png".  URLSearchParams percent-encoding and JavaScript number formatting
are not modelled; no claim observes this string's exact content. -/
def getImagesEndpoint (fileKey : String) (nodeIds : List String)
    (format : Option String) (scale : Option Rat) : String :=
  "/images/" ++ fileKey ++ "?ids=" ++ String.intercalate "," nodeIds ++
    "&scale=" ++ toString (match scale with
      | none => 1
      | some s => if s = 0 then 1 else s) ++
    "&format=" ++ format.getD "png"

/-- An MCP error classification (the four ErrorCode values index.ts uses). -/
inductive McpErrorCode where
  | invalidRequest | methodNotFound | invalidParams | internalError
deriving DecidableEq, Repr

/-- A classified MCP failure. -/
structure McpErr where
  code : McpErrorCode
  message : String
deriving DecidableEq, Repr

/-- Embedding of the get_images branch of the CallTool dispatcher (index.ts
lines 374-386 plus the catch block at lines 510-517): validation runs first;
a zod throw is not an McpError, so the catch re-classifies it as
`ErrorCode.InternalError` with the message prefixed by "Figma API error: ".
On success the client request is issued and its decoded response serialized.
The second component is the log of issued network requests. -/
def get_images_call (r : GetImagesRaw) (respond : String → String) :
    Except McpErr String × List String :=
  match getImagesParse r with
  | Except.error m =>
    (Except.error ⟨McpErrorCode.internalError, "Figma API error: " ++ m⟩, [])
  | Except.ok a =>
    let req := getImagesEndpoint a.file_key a.node_ids a.format a.scale
    (Except.ok (respond req), [req])

/-- The error classification of a call outcome, if it failed. -/
def callErrCode : Except McpErr String × List String → Option McpErrorCode
  | (Except.error e, _) => some e.code
  | (Except.ok _, _) => none

/-- Raw get_images arguments with scale 5 (outside [0.01, 4]). -/
def scale5Raw : GetImagesRaw := ⟨"KEY", ["1:2"], none, some 5⟩

/-- Counterexample to C6 as stated: with scale 5 the dispatcher does fail
before issuing any request (the request log is empty), but the failure is
classified as internalError — the zod throw escapes to the generic catch and
is wrapped as "Figma API error: ..." — not as the invalid-arguments
classification the claim names. -/
theorem C6_scale_validation_counterexample :
    (get_images_call scale5Raw (fun s => s)).2 = [] ∧
    callErrCode (get_images_call scale5Raw (fun s => s)) = some McpErrorCode.internalError ∧
    McpErrorCode.internalError ≠ McpErrorCode.invalidParams := by decide

theorem getImagesParseScale_out (r : GetImagesRaw) (s : Rat) (hs : r.scale = some s)
    (hout : s < mkRat 1 100 ∨ 4 < s) :
    ∃ m, getImagesParseScale r = Except.error m := by
  unfold getImagesParseScale
  rw [hs]
  rcases hout with h | h
  · exact ⟨"Number must be greater than or equal to 0.01", by dsimp only; rw [if_pos h]⟩
  · have hnot : ¬ s < mkRat 1 100 := by
      intro hlt
      have h4 : (4 : Rat) < mkRat 1 100 := lt_trans h hlt
      have hno : ¬ (4 : Rat) < mkRat 1 100 := by decide
      exact hno h4
    exact ⟨"Number must be less than or equal to 4", by dsimp only; rw [if_neg hnot, if_pos h]⟩

theorem getImagesParse_out (r : GetImagesRaw) (s : Rat) (hs : r.scale = some s)
    (hout : s < mkRat 1 100 ∨ 4 < s) :
    ∃ m, getImagesParse r = Except.error m := by
  obtain ⟨m, hm⟩ := getImagesParseScale_out r s hs hout
  unfold getImagesParse
  cases r.format with
  | none => exact ⟨m, hm⟩
  | some f =>
    by_cases hf : imageFormats.contains f = true
    · exact ⟨m, by dsimp only; rw [if_pos hf]; exact hm⟩
    · exact ⟨"Invalid enum value for format", by dsimp only; rw [if_neg hf]⟩

/-- C6 (amended): every get_images call whose scale lies outside [0.01, 4]
fails before any network request is issued (the request log is empty, so no
Domain Client operation runs on unvalidated input) — but the failure is
classified as an internal error wrapping the validation message, not as the
invalid-arguments classification. -/
theorem C6_scale_validation_amended (r : GetImagesRaw) (respond : String → String)
    (s : Rat) (hs : r.scale = some s) (hout : s < mkRat 1 100 ∨ 4 < s) :
    (∃ m, (get_images_call r respond).1 =
      Except.error ⟨McpErrorCode.internalError, "Figma API error: " ++ m⟩) ∧
    (get_images_call r respond).2 = [] := by
  obtain ⟨m, hm⟩ := getImagesParse_out r s hs hout
  unfold get_images_call
  rw [hm]
  exact ⟨⟨m, rfl⟩, rfl⟩

theorem C6_scale_validation_amended_witness :
    scale5Raw.scale = some 5 ∧ ((5 : Rat) < mkRat 1 100 ∨ (4 : Rat) < 5) ∧
    ((∃ m, (get_images_call scale5Raw (fun s => s)).1 =
      Except.error ⟨McpErrorCode.internalError, "Figma API error: " ++ m⟩) ∧
    (get_images_call scale5Raw (fun s => s)).2 = []) :=
  ⟨rfl, Or.inr (by decide),
    C6_scale_validation_amended scale5Raw (fun s => s) 5 rfl (Or.inr (by decide))⟩

/-- Splits a character list at the first occurrence of any stop character:
the span before it and the remainder starting with the stop (or empty). -/
def splitAtChars (stops : List Char) : List Char → List Char × List Char
  | [] => ([], [])
  | c :: rest =>
    if stops.contains c then ([], c :: rest)
    else
      let p := splitAtChars stops rest
      (c :: p.1, p.2)

/-- Whether a character may start a URL scheme. -/
def isSchemeStart (c : Char) : Bool := c.isAlpha

/-- Whether a character may continue a URL scheme. -/
def isSchemeChar (c : Char) : Bool := c.isAlphanum || c == '+' || c == '-' || c == '.'

/-- Consume the rest of a scheme up to its colon, returning the remainder
after the colon. -/
def schemeRest : List Char → Option (List Char)
  | [] => none
  | c :: rest =>
    if c == ':' then some rest
    else if isSchemeChar c then schemeRest rest
    else none

/-- Strip a valid scheme and its colon. -/
def stripScheme : List Char → Option (List Char)
  | [] => none
  | c :: rest => if isSchemeStart c then schemeRest rest else none

/-- The two observations parseFigmaUrl makes of a parsed URL. -/
structure ParsedUrl where
  pathname : String
  search : String
deriving DecidableEq, Repr

/-- Pathname and query of the remainder following the scheme (and the
authority, when one is present). -/
def pathAndQuery (cs : List Char) : ParsedUrl :=
  let pq := splitAtChars ['?', '#'] cs
  let q := match pq.2 with
    | '?' :: qrest => (splitAtChars ['#'] qrest).1
    | _ => []
  ⟨String.mk pq.1, String.mk q⟩

/-- Model of the WHATWG `new URL(...)` constructor, restricted to the two
observations parseFigmaUrl makes (pathname and one search parameter): a
string is accepted iff it starts with a scheme — a letter followed by
letters, digits, plus, minus, or dot — and a colon, mirroring the
constructor's throw-on-invalid behaviour; after `//` the authority extends
to the first slash, question mark, or hash, and the pathname from there to
the first question mark or hash; the query follows a question mark up to a
hash.  WHATWG path normalization, percent-encoding normalization, and host
validation are not modelled. -/
def urlParse (s : String) : Option ParsedUrl :=
  match stripScheme s.toList with
  | none => none
  | some rest =>
    match rest with
    | '/' :: '/' :: rest2 =>
      let ap := splitAtChars ['/', '?', '#'] rest2
      some (pathAndQuery ap.2)
    | _ => some (pathAndQuery rest)

/-- Value of a hexadecimal digit. -/
def hexVal (c : Char) : Option Nat :=
  if 48 ≤ c.toNat && c.toNat ≤ 57 then some (c.toNat - 48)
  else if 97 ≤ c.toNat && c.toNat ≤ 102 then some (c.toNat - 87)
  else if 65 ≤ c.toNat && c.toNat ≤ 70 then some (c.toNat - 55)
  else none

/-- Decoding of application/x-www-form-urlencoded text, as URLSearchParams
applies it to names and values: plus becomes space, a percent followed by
two hex digits becomes that code point (multi-byte UTF-8 reassembly is not
modelled; the claims decode ASCII only), anything else passes through. -/
def formDecode : List Char → List Char
  | [] => []
  | '+' :: rest => ' ' :: formDecode rest
  | '%' :: a :: b :: rest =>
    match hexVal a, hexVal b with
    | some ha, some hb => Char.ofNat (16 * ha + hb) :: formDecode rest
    | _, _ => '%' :: formDecode (a :: b :: rest)
  | c :: rest => c :: formDecode rest

/-- Splits on a separator character, keeping empty segments. -/
def splitSegs (sep : Char) : List Char → List (List Char)
  | [] => [[]]
  | c :: rest =>
    if c == sep then [] :: splitSegs sep rest
    else match splitSegs sep rest with
      | [] => [[c]]
      | seg :: segs => (c :: seg) :: segs

/-- The decoded name-value pairs of a query string, as URLSearchParams parses
it: split on ampersands, drop empty segments, split each at the first equals
sign, decode names and values. -/
def queryPairs (q : List Char) : List (String × String) :=
  (splitSegs '&' q).filterMap (fun seg =>
    if seg.isEmpty then none
    else
      let nv := splitAtChars ['='] seg
      let v := match nv.2 with
        | _ :: vs => vs
        | [] => []
      some (String.mk (formDecode nv.1), String.mk (formDecode v)))

/-- Model of `searchParams.get`: the value of the first pair carrying the
given name. -/
def searchParamsGet (search : String) (nm : String) : Option String :=
  ((queryPairs search.toList).find? (fun p => p.1 == nm)).map (fun p => p.2)

/-- Longest leading run of ASCII alphanumeric characters. -/
def alnumRun : List Char → List Char
  | [] => []
  | c :: rest => if c.isAlphanum then c :: alnumRun rest else []

/-- Match of the regex `\/(file|design)\/([a-zA-Z0-9]+)` anchored at the head
of the list, returning the captured key (the greedy alphanumeric run, which
must be nonempty). -/
def matchFileDesignAt (cs : List Char) : Option (List Char) :=
  if leadsWith cs "/file/".toList then
    let run := alnumRun (cs.drop 6)
    if run.isEmpty then none else some run
  else if leadsWith cs "/design/".toList then
    let run := alnumRun (cs.drop 8)
    if run.isEmpty then none else some run
  else none

/-- First (leftmost) match of the regex `\/(file|design)\/([a-zA-Z0-9]+)`:
scan the positions left to right; at each, the alternatives are mutually
exclusive and the captured run is greedy, as in the regex engine. -/
def firstFileDesignKey : List Char → Option (List Char)
  | [] => none
  | c :: rest =>
    match matchFileDesignAt (c :: rest) with
    | some k => some k
    | none => firstFileDesignKey rest

/-- Result record of parseFigmaUrl. -/
structure FigmaUrlInfo where
  fileKey : String
  nodeId : Option String
deriving DecidableEq, Repr

/-- Embedding of `parseFigmaUrl` (figma-client.ts lines 207-228): parse the
URL (the constructor's throw on an invalid URL is caught, yielding null),
match the pathname against `\/(file|design)\/([a-zA-Z0-9]+)`, and read the
node-id search parameter — JavaScript `|| undefined` also discards an
empty-string value.  Total by construction: absence is the only failure
signal. -/
def parseFigmaUrl (url : String) : Option FigmaUrlInfo :=
  match urlParse url with
  | none => none
  | some u =>
    match firstFileDesignKey u.pathname.toList with
    | none => none
    | some key =>
      let nodeId := match searchParamsGet u.search "node-id" with
        | none => none
        | some v => if v == "" then none else some v
      some ⟨String.mk key, nodeId⟩

set_option maxRecDepth 100000 in
/-- C5: `parseFigmaUrl` is total (never raises — absence is the only failure
signal) and yields a key exactly when the URL parses and its pathname
contains a /file/<key> or /design/<key> segment; on the worked examples it
gives key ABC123 with no node id, key XYZ9 with node-id 1%3A2 decoded to
1:2, none for a non-URL, and none for the wrong path segment. -/
theorem C5_parseFigmaUrl (s : String) :
    ((parseFigmaUrl s).isSome ↔
      ∃ u k, urlParse s = some u ∧ firstFileDesignKey u.pathname.toList = some k) ∧
    parseFigmaUrl "https://www.figma.com/file/ABC123/My-File" =
      some ⟨"ABC123", none⟩ ∧
    parseFigmaUrl "https://www.figma.com/design/XYZ9?node-id=1%3A2" =
      some ⟨"XYZ9", some "1:2"⟩ ∧
    parseFigmaUrl "not a url" = none ∧
    parseFigmaUrl "https://www.figma.com/other/ABC123" = none := by
  refine ⟨?_, by decide, by decide, by decide, by decide⟩
  unfold parseFigmaUrl
  cases hu : urlParse s with
  | none => simp
  | some u =>
    cases hk : firstFileDesignKey u.pathname.toList with
    | none =>
      simp only [String.toList] at hk
      simp [hk]
    | some k =>
      simp only [String.toList] at hk
      simp [hk]
